import Mathlib

/-!
# Verification of the string-analyzer service (`src/main.py`)

Shallow embedding of the core of the service: the analyzer
(`analyze_string`), the in-memory store (`STORE`, a Python dict modelled
as an insertion-ordered association list), the filter engine
(`apply_filters`), the rule-based natural-language parser (`parse_query`),
the lookup resolver (`find_string`) and the endpoint handlers
(`create_string`, `list_strings`, `filter_nl`, `get_string`,
`delete_string`).

Python strings are modelled as Lean `String`; `str.lower()`, `re`'s
character classes `\s` and `\d`, and `str.strip()` are modelled on the
ASCII range (all inputs exercised by the claims are ASCII).  Machine
words in the hash are `Nat` reduced `% 2^32` where overflow matters.
`hashlib.sha256` is embedded as a full executable SHA-256 over byte
lists (FIPS 180-4).  Stateful handlers take the store explicitly and
return the (possibly unchanged) store next to an `Except` outcome, the
error carrying the HTTP status code and detail string raised by the
handler.
-/

namespace StringSvc

/-! ## SHA-256 (model of `hashlib.sha256(...).hexdigest()`) -/

/-- Rotate a 32-bit word right by `n` (the input word is assumed `< 2^32`). -/
def rotr (n x : Nat) : Nat :=
  (x >>> n) ||| ((x <<< (32 - n)) % 4294967296)

/-- Round constants of SHA-256 (FIPS 180-4, in decimal). -/
def kConst : List Nat :=
  [1116352408, 1899447441, 3049323471, 3921009573, 961987163, 1508970993,
   2453635748, 2870763221, 3624381080, 310598401, 607225278, 1426881987,
   1925078388, 2162078206, 2614888103, 3248222580, 3835390401, 4022224774,
   264347078, 604807628, 770255983, 1249150122, 1555081692, 1996064986,
   2554220882, 2821834349, 2952996808, 3210313671, 3336571891, 3584528711,
   113926993, 338241895, 666307205, 773529912, 1294757372, 1396182291,
   1695183700, 1986661051, 2177026350, 2456956037, 2730485921, 2820302411,
   3259730800, 3345764771, 3516065817, 3600352804, 4094571909, 275423344,
   430227734, 506948616, 659060556, 883997877, 958139571, 1322822218,
   1537002063, 1747873779, 1955562222, 2024104815, 2227730452, 2361852424,
   2428436474, 2756734187, 3204031479, 3329325298]

/-- The eight 32-bit working variables of the compression function. -/
structure Hash8 where
  a : Nat
  b : Nat
  c : Nat
  d : Nat
  e : Nat
  f : Nat
  g : Nat
  h : Nat
deriving DecidableEq, Repr

/-- Starting hash state of SHA-256 (FIPS 180-4, in decimal). -/
def initH : Hash8 :=
  ⟨1779033703, 3144134277, 1013904242, 2773480762,
   1359893119, 2600822924, 528734635, 1541459225⟩

/-- Big-endian rendering of `n` as `k` bytes. -/
def beBytes : Nat → Nat → List Nat
  | 0, _ => []
  | k + 1, n => beBytes k (n / 256) ++ [n % 256]

/-- Group a byte list into big-endian 32-bit words. -/
def bytesToWords : List Nat → List Nat
  | b0 :: b1 :: b2 :: b3 :: rest =>
      (((b0 * 256 + b1) * 256 + b2) * 256 + b3) :: bytesToWords rest
  | _ => []

/-- Message-schedule extension; the word list is kept most-recent-first,
so `W[t-2]` is at index 1, `W[t-7]` at 6, `W[t-15]` at 14, `W[t-16]` at 15. -/
def extendW : Nat → List Nat → List Nat
  | 0, w => w
  | t + 1, w =>
    let w2 := w.getD 1 0
    let w7 := w.getD 6 0
    let w15 := w.getD 14 0
    let w16 := w.getD 15 0
    let s0 := (rotr 7 w15) ^^^ (rotr 18 w15) ^^^ (w15 >>> 3)
    let s1 := (rotr 17 w2) ^^^ (rotr 19 w2) ^^^ (w2 >>> 10)
    extendW t (((w16 + s0 + w7 + s1) % 4294967296) :: w)

/-- The 64-word message schedule of one 16-word block. -/
def messageSchedule (block : List Nat) : List Nat :=
  (extendW 48 block.reverse).reverse

/-- One round of the compression function on constant/schedule pair `kw`. -/
def roundStep (s : Hash8) (kw : Nat × Nat) : Hash8 :=
  let s1 := (rotr 6 s.e) ^^^ (rotr 11 s.e) ^^^ (rotr 25 s.e)
  let ch := (s.e &&& s.f) ^^^ ((s.e ^^^ 4294967295) &&& s.g)
  let temp1 := (s.h + s1 + ch + kw.1 + kw.2) % 4294967296
  let s0 := (rotr 2 s.a) ^^^ (rotr 13 s.a) ^^^ (rotr 22 s.a)
  let maj := (s.a &&& s.b) ^^^ (s.a &&& s.c) ^^^ (s.b &&& s.c)
  let temp2 := (s0 + maj) % 4294967296
  ⟨(temp1 + temp2) % 4294967296, s.a, s.b, s.c,
   (s.d + temp1) % 4294967296, s.e, s.f, s.g⟩

/-- Compress one 16-word block into the running hash value. -/
def compressBlock (hv : Hash8) (block : List Nat) : Hash8 :=
  let w := messageSchedule block
  let s := (kConst.zip w).foldl roundStep hv
  ⟨(hv.a + s.a) % 4294967296, (hv.b + s.b) % 4294967296,
   (hv.c + s.c) % 4294967296, (hv.d + s.d) % 4294967296,
   (hv.e + s.e) % 4294967296, (hv.f + s.f) % 4294967296,
   (hv.g + s.g) % 4294967296, (hv.h + s.h) % 4294967296⟩

/-- Split into 64-byte chunks; `fuel` bounds the recursion and is passed
as the list length (one chunk consumes 64 bytes, so length suffices). -/
def chunks64 : Nat → List Nat → List (List Nat)
  | 0, _ => []
  | _, [] => []
  | fuel + 1, l => l.take 64 :: chunks64 fuel (l.drop 64)

/-- Serialize the final hash value, big-endian. -/
def hashBytes (v : Hash8) : List Nat :=
  beBytes 4 v.a ++ beBytes 4 v.b ++ beBytes 4 v.c ++ beBytes 4 v.d ++
  beBytes 4 v.e ++ beBytes 4 v.f ++ beBytes 4 v.g ++ beBytes 4 v.h

/-- SHA-256 of a byte string: pad to a multiple of 64 bytes
(`128`, zeros, 8-byte big-endian bit length), then compress each block. -/
def sha256 (msg : List Nat) : List Nat :=
  let zeros := (120 - (msg.length + 1) % 64) % 64
  let padded := msg ++ [128] ++ List.replicate zeros 0 ++ beBytes 8 (msg.length * 8)
  let blocks := chunks64 padded.length padded
  hashBytes (blocks.foldl (fun hv b => compressBlock hv (bytesToWords b)) initH)

/-- One lowercase hex digit. -/
def hexChar (n : Nat) : Char :=
  if n < 10 then Char.ofNat (48 + n) else Char.ofNat (87 + n)

/-- Lowercase hex rendering of a byte string (`.hexdigest()`). -/
def hexDigest : List Nat → List Char
  | [] => []
  | b :: rest => hexChar (b / 16) :: hexChar (b % 16) :: hexDigest rest

/-- UTF-8 encoding of one code point (`str.encode()` per character). -/
def utf8Bytes (c : Char) : List Nat :=
  let n := c.toNat
  if n < 128 then [n]
  else if n < 2048 then [192 + n / 64, 128 + n % 64]
  else if n < 65536 then [224 + n / 4096, 128 + (n / 64) % 64, 128 + n % 64]
  else [240 + n / 262144, 128 + (n / 4096) % 64, 128 + (n / 64) % 64, 128 + n % 64]

/-- Model of `str.encode()`: the UTF-8 bytes of a string. -/
def encodeUtf8 (s : String) : List Nat :=
  (s.data.map utf8Bytes).flatten

/-! ## The analyzer (`normalize`, `analyze_string`) -/

/-- Model of `str.lower()` on one character (ASCII case mapping). -/
def lowerChar (c : Char) : Char :=
  if 65 ≤ c.toNat ∧ c.toNat ≤ 90 then Char.ofNat (c.toNat + 32) else c

/-- The helper `normalize(text)` from the source: `text.lower()`. -/
def normalize (text : String) : String :=
  String.mk (text.data.map lowerChar)

/-- The regex class `\s` (ASCII whitespace). -/
def isSpace (c : Char) : Bool :=
  c.toNat == 32 || (9 ≤ c.toNat && c.toNat ≤ 13)

/-- The regex class `\d` (ASCII digits). -/
def isDigit (c : Char) : Bool :=
  48 ≤ c.toNat && c.toNat ≤ 57

/-- Word counting, modelling the number of regex matches of one-or-more
non-whitespace characters: the number of maximal non-whitespace
runs; the flag records whether the previous character was non-whitespace. -/
def countWordsGo : List Char → Bool → Nat
  | [], _ => 0
  | c :: rest, inWord =>
    if isSpace c then countWordsGo rest false
    else (if inWord then 0 else 1) + countWordsGo rest true

def countWords (l : List Char) : Nat :=
  countWordsGo l false

/-- First-match association-list lookup (Python `dict` lookup / `.get`). -/
def alookup {α β : Type} [DecidableEq α] : List (α × β) → α → Option β
  | [], _ => none
  | (k, v) :: rest, x => if k = x then some v else alookup rest x

/-- One step of `collections.Counter` over a string: increment the count
of `c`, appending a new key at the end on first occurrence. -/
def bump : List (Char × Nat) → Char → List (Char × Nat)
  | [], c => [(c, 1)]
  | (k, n) :: rest, c =>
      if k = c then (k, n + 1) :: rest else (k, n) :: bump rest c

/-- Model of `dict(Counter(l))`: counts keyed by character, in
first-occurrence order. -/
def counter (l : List Char) : List (Char × Nat) :=
  l.foldl bump []

/-- The properties dict returned by `analyze_string`. -/
structure StringProperties where
  length : Nat
  is_palindrome : Bool
  unique_characters : Nat
  word_count : Nat
  sha256_hash : String
  character_frequency_map : List (Char × Nat)
deriving DecidableEq, Repr

/-- The analyzer `analyze_string(value)` from the source:
lowercase folding, palindrome on the folded value, `len(set(...))` for
unique characters (modelled as `dedup.length`), whitespace-run word
count on the original value, SHA-256 hex digest of the folded value's
UTF-8 bytes, and a `Counter` frequency map of the folded value. -/
def analyze_string (value : String) : StringProperties :=
  let lower_value := normalize value
  { length := value.length
    is_palindrome := lower_value.data == lower_value.data.reverse
    unique_characters := lower_value.data.dedup.length
    word_count := countWords value.data
    sha256_hash := String.mk (hexDigest (sha256 (encodeUtf8 lower_value)))
    character_frequency_map := counter lower_value.data }

/-! ## The store and records -/

/-- A stored record (`id`, `value`, `properties`, `created_at`). -/
structure StringRecord where
  id : String
  value : String
  properties : StringProperties
  created_at : String
deriving DecidableEq, Repr

/-- The global `STORE`: a Python dict modelled as an insertion-ordered association
list from id to record. -/
abbrev Store := List (String × StringRecord)

/-- Dict key lookup on the store (`STORE.get(k)` / `STORE[k]`). -/
def storeGet (s : Store) (k : String) : Option StringRecord :=
  alookup s k

/-- Model of `list(STORE.values())`: records in insertion order. -/
def storeValues (s : Store) : List StringRecord :=
  s.map Prod.snd

/-- Model of `del STORE[k]`: remove the key. -/
def storeErase (s : Store) (k : String) : Store :=
  s.filter (fun p => p.1 != k)

/-! ## The filter engine (`apply_filters`) -/

/-- The optional filter criteria (the keyword arguments of
`apply_filters` / the query parameters of `list_strings`). -/
structure Filters where
  is_palindrome : Option Bool
  min_length : Option Int
  max_length : Option Int
  word_count : Option Int
  contains_character : Option String
deriving DecidableEq, Repr

/-- All criteria absent. -/
def emptyFilters : Filters :=
  ⟨none, none, none, none, none⟩

/-- Key membership of a (possibly multi-character) string in the
character-keyed frequency map (`ch in props["character_frequency_map"]`:
a Python string matches a one-character dict key only if it has length
one itself). -/
def containsKey (m : List (Char × Nat)) (s : String) : Bool :=
  match s.data with
  | [c] => (alookup m c).isSome
  | _ => false

/-- The conjunction of `continue` guards in the `apply_filters` loop:
`true` when the item is kept.  Note `if contains_character:` is falsy
for `None` and for the empty string, so both impose no constraint. -/
def keepRecord (f : Filters) (item : StringRecord) : Bool :=
  let props := item.properties
  (match f.is_palindrome with
   | none => true
   | some b => props.is_palindrome == b) &&
  (match f.min_length with
   | none => true
   | some m => !(decide ((props.length : Int) < m))) &&
  (match f.max_length with
   | none => true
   | some m => !(decide ((props.length : Int) > m))) &&
  (match f.word_count with
   | none => true
   | some w => (props.word_count : Int) == w) &&
  (match f.contains_character with
   | none => true
   | some s => if s == "" then true
               else containsKey props.character_frequency_map (normalize s))

/-- The engine `apply_filters`: the loop appending every item not skipped by a
`continue`. -/
def apply_filters : List StringRecord → Filters → List StringRecord
  | [], _ => []
  | item :: rest, f =>
      if keepRecord f item then item :: apply_filters rest f
      else apply_filters rest f

/-! ## The natural-language parser (`parse_query`) -/

/-- Strip `pat` as a literal from the front of `s` (regex literal part). -/
def dropLit : List Char → List Char → Option (List Char)
  | [], s => some s
  | _ :: _, [] => none
  | p :: ps, c :: cs => if p = c then dropLit ps cs else none

/-- Search-style scan as in `re.search`: try the matcher at every position, leftmost
match wins. -/
def searchPos {α : Type} (f : List Char → Option α) : List Char → Option α
  | [] => f []
  | c :: cs =>
    match f (c :: cs) with
    | some v => some v
    | none => searchPos f cs

/-- Substring containment (Python `pat in q`). -/
def hasSub (pat : List Char) (s : List Char) : Bool :=
  (searchPos (dropLit pat) s).isSome

/-- Model of `int(...)` on a digit run. -/
def digitsToNat (ds : List Char) : Nat :=
  ds.foldl (fun a c => a * 10 + (c.toNat - 48)) 0

/-- Match of the longer-than pattern (its literal, then one or more
digits, captured) anchored at the current position. -/
def matchLongerAt (s : List Char) : Option Nat :=
  match dropLit "longer than ".data s with
  | none => none
  | some rest =>
    let ds := rest.takeWhile isDigit
    if ds = [] then none else some (digitsToNat ds)

/-- Search for the longer-than regex, returning the captured number. -/
def searchLonger (s : List Char) : Option Nat :=
  searchPos matchLongerAt s

/-- The regex class `[a-z]`. -/
def isAZ (c : Char) : Bool :=
  97 ≤ c.toNat && c.toNat ≤ 122

/-- Match of the containing-the-letter pattern anchored at the current
position (at least one whitespace, then one lowercase letter). -/
def matchLetterAt (s : List Char) : Option Char :=
  match dropLit "containing the letter".data s with
  | none => none
  | some rest =>
    if rest.takeWhile isSpace = [] then none
    else
      match rest.dropWhile isSpace with
      | c :: _ => if isAZ c then some c else none
      | [] => none

/-- Search for the containing-the-letter regex (its literal, then
one-or-more whitespace, then one captured lowercase letter). -/
def searchLetter (s : List Char) : Option Char :=
  searchPos matchLetterAt s

/-- Model of `str.strip()` (ASCII whitespace). -/
def strip (l : List Char) : List Char :=
  ((l.dropWhile isSpace).reverse.dropWhile isSpace).reverse

/-- The normalized query `q = query.lower().strip()`. -/
def normQuery (query : String) : List Char :=
  strip (normalize query).data

/-- The filters dict built by the five pattern rules of `parse_query`,
in source order ("first vowel" last, overwriting `contains_character`). -/
def parsedFilters (query : String) : Filters :=
  let q := normQuery query
  let f0 := emptyFilters
  let f1 := if hasSub "palind".data q then { f0 with is_palindrome := some true } else f0
  let f2 := if hasSub "single word".data q then { f1 with word_count := some 1 } else f1
  let f3 := match searchLonger q with
            | some n => { f2 with min_length := some ((n : Int) + 1) }
            | none => f2
  let f4 := match searchLetter q with
            | some c => { f3 with contains_character := some (String.mk [c]) }
            | none => f3
  if hasSub "first vowel".data q then { f4 with contains_character := some "a" } else f4

/-- The parser `parse_query`: the built filters, or `ValueError` (its message) when
the dict is empty (`if not filters`). -/
def parse_query (query : String) : Except String Filters :=
  let filters := parsedFilters query
  if filters = emptyFilters then Except.error "Couldn't understand the query."
  else Except.ok filters

/-! ## The lookup resolver (`find_string`) -/

/-- One lowercase hex digit, as in the regex class `[0-9a-f]`. -/
def isHexDigit (c : Char) : Bool :=
  (48 ≤ c.toNat && c.toNat ≤ 57) || (97 ≤ c.toNat && c.toNat ≤ 102)

/-- Full match of the fingerprint regex: exactly 64 lowercase hex digits. -/
def isHex64 (s : String) : Bool :=
  s.length == 64 && s.data.all isHexDigit

/-- The resolver `find_string(value_or_id)`: by id when the token looks like a hash
(no fallthrough on a miss), else by fingerprint of the normalized token,
else first record whose lowercased value equals the normalized token. -/
def find_string (store : Store) (value_or_id : String) : Option StringRecord :=
  if isHex64 value_or_id then storeGet store value_or_id
  else
    let norm := normalize value_or_id
    let sid := String.mk (hexDigest (sha256 (encodeUtf8 norm)))
    match storeGet store sid with
    | some r => some r
    | none => (storeValues store).find? (fun r => normalize r.value == norm)

/-! ## Endpoint handlers -/

/-- An HTTP exception: status code and detail message. -/
abbrev ApiError := Nat × String

/-- Create endpoint (POST on the strings collection): analyze, reject a
duplicate fingerprint with 409,
otherwise append the new record.  The store is threaded explicitly and
returned unchanged when the handler raises. -/
def create_string (store : Store) (now value : String) :
    Except ApiError StringRecord × Store :=
  let props := analyze_string value
  let sid := props.sha256_hash
  match storeGet store sid with
  | some _ => (Except.error (409, "String already exists"), store)
  | none =>
    let record : StringRecord := ⟨sid, value, props, now⟩
    (Except.ok record, store ++ [(sid, record)])

/-- The guard `if contains_character and len(contains_character) != 1`
(falsy for `None` and for the empty string). -/
def ccBad : Option String → Bool
  | some s => !(s == "") && !(s.length == 1)
  | none => false

/-- List endpoint (GET on the strings collection): validate
`contains_character`, then filter; the
response is modelled as the data list and its count. -/
def list_strings (store : Store) (f : Filters) :
    Except ApiError (List StringRecord × Nat) :=
  if ccBad f.contains_character then
    Except.error (400, "contains_character must be one letter")
  else
    let results := apply_filters (storeValues store) f
    Except.ok (results, results.length)

/-- Natural-language filter endpoint: parse (400 on
`ValueError`), then filter; the response carries the parsed filters. -/
def filter_nl (store : Store) (query : String) :
    Except ApiError (List StringRecord × Filters) :=
  match parse_query query with
  | Except.error msg => Except.error (400, msg)
  | Except.ok fs => Except.ok (apply_filters (storeValues store) fs, fs)

/-- Get endpoint for one token: resolve or 404. -/
def get_string (store : Store) (string_value : String) :
    Except ApiError StringRecord :=
  match find_string store string_value with
  | some r => Except.ok r
  | none => Except.error (404, "String not found")

/-- Delete endpoint for one token: resolve or 404, then delete the
resolved record's id. -/
def delete_string (store : Store) (string_value : String) :
    Except ApiError Unit × Store :=
  match find_string store string_value with
  | none => (Except.error (404, "String not found"), store)
  | some r => (Except.ok (), storeErase store r.id)

/-! ## Association-list lemmas -/

theorem alookup_append_none {α β : Type} [DecidableEq α] {s : List (α × β)}
    (t : List (α × β)) {k : α} (h : alookup s k = none) :
    alookup (s ++ t) k = alookup t k := by
  induction s with
  | nil => rfl
  | cons p rest ih =>
    obtain ⟨k', v⟩ := p
    by_cases hk : k' = k
    · subst hk; simp [alookup] at h
    · simp only [alookup, hk, if_false, List.cons_append] at h ⊢
      exact ih h

theorem alookup_eq_some_of_mem {α β : Type} [DecidableEq α] {s : List (α × β)}
    {k : α} {v : β} (hn : (s.map Prod.fst).Nodup) (hm : (k, v) ∈ s) :
    alookup s k = some v := by
  induction s with
  | nil => cases hm
  | cons p rest ih =>
    obtain ⟨k', v'⟩ := p
    simp only [List.map_cons, List.nodup_cons] at hn
    rcases List.mem_cons.mp hm with heq | hmem
    · obtain ⟨hk, hv⟩ := Prod.mk.injEq .. ▸ heq
      simp [alookup, hk.symm, hv]
    · have hkne : k' ≠ k := by
        intro hkk
        exact hn.1 (hkk ▸ List.mem_map_of_mem Prod.fst hmem)
      simp only [alookup, hkne, if_false]
      exact ih hn.2 hmem

theorem alookup_filter_ne {α β : Type} [DecidableEq α] (s : List (α × β)) (k : α) :
    alookup (s.filter (fun p => p.1 != k)) k = none := by
  induction s with
  | nil => rfl
  | cons p rest ih =>
    obtain ⟨k', v⟩ := p
    by_cases hk : k' = k
    · simpa [List.filter_cons, hk] using ih
    · simpa [List.filter_cons, hk, alookup] using ih

/-! ## Hex-digest lemmas: a digest is a 64-character lowercase hex string -/

theorem beBytes_length (k n : Nat) : (beBytes k n).length = k := by
  induction k generalizing n with
  | zero => rfl
  | succ k ih => simp [beBytes, ih]

theorem beBytes_lt (k n : Nat) : ∀ b ∈ beBytes k n, b < 256 := by
  induction k generalizing n with
  | zero => intro b hb; cases hb
  | succ k ih =>
    intro b hb
    rcases List.mem_append.mp hb with h | h
    · exact ih _ b h
    · simp only [List.mem_singleton] at h
      omega

theorem hashBytes_length (v : Hash8) : (hashBytes v).length = 32 := by
  simp [hashBytes, beBytes_length]

theorem hashBytes_lt (v : Hash8) : ∀ b ∈ hashBytes v, b < 256 := by
  intro b hb
  simp only [hashBytes, List.mem_append] at hb
  rcases hb with ((((((h | h) | h) | h) | h) | h) | h) | h <;>
    exact beBytes_lt 4 _ b h

theorem sha256_length (m : List Nat) : (sha256 m).length = 32 :=
  hashBytes_length _

theorem sha256_lt (m : List Nat) : ∀ b ∈ sha256 m, b < 256 :=
  hashBytes_lt _

theorem hexChar_isHexDigit {n : Nat} (h : n < 16) : isHexDigit (hexChar n) = true := by
  interval_cases n <;> decide

theorem hexDigest_length (l : List Nat) : (hexDigest l).length = 2 * l.length := by
  induction l with
  | nil => rfl
  | cons b rest ih => simp [hexDigest, ih]; omega

theorem hexDigest_all (l : List Nat) (hl : ∀ b ∈ l, b < 256) :
    ∀ c ∈ hexDigest l, isHexDigit c = true := by
  induction l with
  | nil => intro c hc; cases hc
  | cons b rest ih =>
    intro c hc
    have hb : b < 256 := hl b (List.mem_cons_self ..)
    rcases List.mem_cons.mp hc with h | hc'
    · exact h ▸ hexChar_isHexDigit (by omega)
    · rcases List.mem_cons.mp hc' with h | hc''
      · exact h ▸ hexChar_isHexDigit (by omega)
      · exact ih (fun x hx => hl x (List.mem_cons_of_mem b hx)) c hc''

theorem isHex64_digest (m : List Nat) :
    isHex64 (String.mk (hexDigest (sha256 m))) = true := by
  have hlen : (hexDigest (sha256 m)).length = 64 := by
    rw [hexDigest_length, sha256_length]
  have hall : ∀ c ∈ hexDigest (sha256 m), isHexDigit c = true :=
    hexDigest_all _ (sha256_lt m)
  simp only [isHex64, Bool.and_eq_true, beq_iff_eq, List.all_eq_true]
  exact ⟨hlen, fun c hc => hall c hc⟩

/-! ## Case-folding is idempotent -/

theorem lowerChar_toNat (c : Char) :
    (lowerChar c).toNat =
      if 65 ≤ c.toNat ∧ c.toNat ≤ 90 then c.toNat + 32 else c.toNat := by
  unfold lowerChar
  split
  · next hc =>
    have hv : (c.toNat + 32).isValidChar := Or.inl (by omega)
    rw [Char.ofNat, dif_pos hv]
    rfl
  · rfl

theorem lowerChar_idem (c : Char) : lowerChar (lowerChar c) = lowerChar c := by
  by_cases h : 65 ≤ c.toNat ∧ c.toNat ≤ 90
  · have h1 : (lowerChar c).toNat = c.toNat + 32 := by rw [lowerChar_toNat, if_pos h]
    have h2 : ¬(65 ≤ (lowerChar c).toNat ∧ (lowerChar c).toNat ≤ 90) := by omega
    conv_lhs => rw [lowerChar]
    rw [if_neg h2]
  · have h1 : lowerChar c = c := by rw [lowerChar, if_neg h]
    rw [h1, h1]

theorem normalize_idem (v : String) : normalize (normalize v) = normalize v := by
  show String.mk ((v.data.map lowerChar).map lowerChar) = String.mk (v.data.map lowerChar)
  rw [List.map_map]
  congr 1
  exact List.map_congr_left fun a _ => lowerChar_idem a

/-! ## `Counter` lemmas: keys are the distinct characters in first-occurrence
order and each count is the number of occurrences -/

theorem alookup_bump (m : List (Char × Nat)) (c x : Char) :
    alookup (bump m c) x =
      if x = c then some ((alookup m c).getD 0 + 1) else alookup m x := by
  induction m with
  | nil =>
    by_cases hx : x = c
    · simp [bump, alookup, hx]
    · simp [bump, alookup, hx, Ne.symm hx]
  | cons p rest ih =>
    obtain ⟨k, n⟩ := p
    by_cases hk : k = c
    · by_cases hx : x = c
      · simp [bump, alookup, hk, hx]
      · simp [bump, alookup, hk, hx, Ne.symm hx]
    · simp only [bump, if_neg hk]
      by_cases hx : x = k
      · have hxc : ¬x = c := fun h => hk ((hx.symm.trans h) ▸ rfl)
        simp [alookup, hx, hxc, hk]
      · simp only [alookup, Ne.symm hx, if_false, ih]
        by_cases hc : x = c
        · simp [hc, alookup, Ne.symm hx, hk]
        · simp [hc]

theorem keys_bump (m : List (Char × Nat)) (c : Char) :
    (bump m c).map Prod.fst =
      if c ∈ m.map Prod.fst then m.map Prod.fst else m.map Prod.fst ++ [c] := by
  induction m with
  | nil => simp [bump]
  | cons p rest ih =>
    obtain ⟨k, n⟩ := p
    by_cases hk : k = c
    · subst hk; simp [bump]
    · simp only [bump, hk, if_false, List.map_cons]
      rw [ih]
      by_cases hm : c ∈ rest.map Prod.fst <;>
        simp [hm, List.mem_cons, Ne.symm hk]

theorem foldl_bump_alookup (l : List Char) :
    ∀ (acc : List (Char × Nat)) (x : Char),
      alookup (l.foldl bump acc) x =
        if x ∈ l then some ((alookup acc x).getD 0 + l.count x) else alookup acc x := by
  induction l with
  | nil => intro acc x; simp
  | cons c rest ih =>
    intro acc x
    rw [List.foldl_cons, ih]
    by_cases hx : x = c
    · subst hx
      rw [alookup_bump, if_pos rfl, if_pos (List.mem_cons_self ..)]
      by_cases hr : x ∈ rest
      · rw [if_pos hr]
        simp only [Option.getD_some, List.count_cons_self]
        congr 1
        omega
      · rw [if_neg hr]
        have h0 : rest.count x = 0 := List.count_eq_zero.mpr hr
        simp [List.count_cons_self, h0]
    · rw [alookup_bump, if_neg hx]
      have hcount : (c :: rest).count x = rest.count x :=
        List.count_cons_of_ne hx rest
      have hmem : (x ∈ c :: rest) ↔ x ∈ rest := by simp [List.mem_cons, hx]
      by_cases hr : x ∈ rest <;> simp [hr, hmem, hcount]

theorem mem_keys_foldl (l : List Char) :
    ∀ (acc : List (Char × Nat)) (x : Char),
      x ∈ (l.foldl bump acc).map Prod.fst ↔ x ∈ acc.map Prod.fst ∨ x ∈ l := by
  induction l with
  | nil => intro acc x; simp
  | cons c rest ih =>
    intro acc x
    rw [List.foldl_cons, ih, keys_bump]
    by_cases hm : c ∈ acc.map Prod.fst
    · rw [if_pos hm]
      simp only [List.mem_cons]
      constructor
      · rintro (h | h)
        · exact Or.inl h
        · exact Or.inr (Or.inr h)
      · rintro (h | h | h)
        · exact Or.inl h
        · exact Or.inl (h ▸ hm)
        · exact Or.inr h
    · rw [if_neg hm]
      simp only [List.mem_append, List.mem_singleton, List.mem_cons]
      tauto

theorem nodup_keys_foldl (l : List Char) :
    ∀ acc : List (Char × Nat),
      (acc.map Prod.fst).Nodup → ((l.foldl bump acc).map Prod.fst).Nodup := by
  induction l with
  | nil => intro acc h; exact h
  | cons c rest ih =>
    intro acc h
    rw [List.foldl_cons]
    apply ih
    rw [keys_bump]
    by_cases hm : c ∈ acc.map Prod.fst
    · rw [if_pos hm]; exact h
    · rw [if_neg hm]
      simp [List.nodup_append, h, hm]

theorem counter_count (l : List Char) (p : Char × Nat) (hp : p ∈ counter l) :
    p.2 = l.count p.1 := by
  have hn : ((counter l).map Prod.fst).Nodup := nodup_keys_foldl l [] (by simp)
  have h1 : alookup (counter l) p.1 = some p.2 := by
    obtain ⟨c, n⟩ := p
    exact alookup_eq_some_of_mem hn hp
  have hmem : p.1 ∈ l := by
    have := (mem_keys_foldl l [] p.1).mp (List.mem_map_of_mem Prod.fst hp)
    simpa using this
  have h2 := foldl_bump_alookup l [] p.1
  rw [if_pos hmem, show (counter l) = l.foldl bump [] from rfl] at *
  rw [h1] at h2
  simp [alookup] at h2
  exact h2

theorem counter_length (l : List Char) : (counter l).length = l.dedup.length := by
  have hn : ((counter l).map Prod.fst).Nodup := nodup_keys_foldl l [] (by simp)
  have hperm : ((counter l).map Prod.fst).Perm l.dedup := by
    apply List.perm_of_nodup_nodup_toFinset_eq hn (List.nodup_dedup l)
    ext x
    simp only [List.mem_toFinset, List.mem_dedup]
    simpa using mem_keys_foldl l [] x
  calc (counter l).length
      = ((counter l).map Prod.fst).length := (List.length_map ..).symm
    _ = l.dedup.length := hperm.length_eq

/-! ## Parser lemmas: one lemma per field of the built filters dict -/

/-- At least one of the five fixed patterns fires on the query. -/
def anyPattern (query : String) : Bool :=
  let q := normQuery query
  hasSub "palind".data q || hasSub "single word".data q ||
  (searchLonger q).isSome || (searchLetter q).isSome ||
  hasSub "first vowel".data q

theorem parsedFilters_max (q : String) : (parsedFilters q).max_length = none := by
  simp only [parsedFilters, emptyFilters]
  repeat' split
  all_goals simp_all

theorem parsedFilters_pal (q : String) :
    (parsedFilters q).is_palindrome =
      if hasSub "palind".data (normQuery q) then some true else none := by
  simp only [parsedFilters, emptyFilters]
  repeat' split
  all_goals simp_all

theorem parsedFilters_wc (q : String) :
    (parsedFilters q).word_count =
      if hasSub "single word".data (normQuery q) then some 1 else none := by
  simp only [parsedFilters, emptyFilters]
  repeat' split
  all_goals simp_all

theorem parsedFilters_min (q : String) :
    (parsedFilters q).min_length =
      (searchLonger (normQuery q)).map (fun n => (n : Int) + 1) := by
  simp only [parsedFilters, emptyFilters]
  repeat' split
  all_goals simp_all

theorem parsedFilters_cc (q : String) :
    (parsedFilters q).contains_character =
      if hasSub "first vowel".data (normQuery q) then some "a"
      else (searchLetter (normQuery q)).map (fun c => String.mk [c]) := by
  simp only [parsedFilters, emptyFilters]
  repeat' split
  all_goals simp_all

theorem filters_eq_empty_iff (f : Filters) :
    f = emptyFilters ↔
      f.is_palindrome = none ∧ f.min_length = none ∧ f.max_length = none ∧
      f.word_count = none ∧ f.contains_character = none := by
  cases f
  simp [emptyFilters, Filters.mk.injEq, and_assoc]

theorem parsedFilters_eq_empty_iff (q : String) :
    parsedFilters q = emptyFilters ↔ anyPattern q = false := by
  rw [filters_eq_empty_iff, parsedFilters_pal, parsedFilters_min, parsedFilters_max,
    parsedFilters_wc, parsedFilters_cc]
  simp only [anyPattern, Bool.or_eq_false_iff]
  cases h1 : hasSub "palind".data (normQuery q) <;>
  cases h2 : hasSub "single word".data (normQuery q) <;>
  cases h3 : searchLonger (normQuery q) <;>
  cases h4 : searchLetter (normQuery q) <;>
  cases h5 : hasSub "first vowel".data (normQuery q) <;>
    simp

theorem parse_query_ok (q : String) (h : parsedFilters q ≠ emptyFilters) :
    parse_query q = Except.ok (parsedFilters q) := by
  rw [parse_query, if_neg h]

theorem parse_query_error (q : String) (h : parsedFilters q = emptyFilters) :
    parse_query q = Except.error "Couldn't understand the query." := by
  rw [parse_query, if_pos h]

/-! ## Filter-engine lemmas -/

theorem keepRecord_empty (item : StringRecord) :
    keepRecord emptyFilters item = true := rfl

theorem apply_filters_congr (l : List StringRecord) (f1 f2 : Filters)
    (h : ∀ i, keepRecord f1 i = keepRecord f2 i) :
    apply_filters l f1 = apply_filters l f2 := by
  induction l with
  | nil => rfl
  | cons item rest ih =>
    simp only [apply_filters, h item, ih]

/-! ## Create-handler destructuring -/

theorem create_ok {store : Store} {now value : String} {r : StringRecord}
    {store' : Store}
    (hc : create_string store now value = (Except.ok r, store')) :
    storeGet store (analyze_string value).sha256_hash = none ∧
    r = ⟨(analyze_string value).sha256_hash, value, analyze_string value, now⟩ ∧
    store' = store ++ [((analyze_string value).sha256_hash, r)] := by
  unfold create_string at hc
  dsimp only at hc
  cases hget : storeGet store (analyze_string value).sha256_hash with
  | some r0 =>
    rw [hget] at hc
    simp at hc
  | none =>
    rw [hget] at hc
    simp only [Prod.mk.injEq, Except.ok.injEq] at hc
    obtain ⟨h1, h2⟩ := hc
    exact ⟨rfl, h1.symm, by rw [← h2, ← h1]⟩

/-- The id assigned at creation is the hex SHA-256 of the normalized value. -/
theorem sha256_hash_def (value : String) :
    (analyze_string value).sha256_hash =
      String.mk (hexDigest (sha256 (encodeUtf8 (normalize value)))) := rfl

/-! ## Claim theorems -/

/-- Claim C7: the filter engine applied with every criterion absent
returns the input list unchanged, and for any criteria the surviving
records are a sublist of the input (same relative order, every survivor
an element of the input, no mutation). -/
theorem c7_filter_identity_and_order (records : List StringRecord) :
    apply_filters records emptyFilters = records ∧
    ∀ f : Filters, List.Sublist (apply_filters records f) records := by
  constructor
  · induction records with
    | nil => rfl
    | cons item rest ih => simp [apply_filters, keepRecord_empty, ih]
  · intro f
    induction records with
    | nil => exact List.Sublist.refl []
    | cons item rest ih =>
      by_cases h : keepRecord f item = true
      · simpa [apply_filters, h] using List.Sublist.cons₂ item ih
      · simp only [apply_filters, h, if_false]
        exact List.Sublist.cons item ih

/-- Claim C9: `unique_characters` equals the number of keys of
`character_frequency_map`, and every entry of the map counts that
character's occurrences in the case-normalized value. -/
theorem c9_frequency_map_consistency (value : String) :
    (analyze_string value).unique_characters =
      (analyze_string value).character_frequency_map.length ∧
    ∀ p ∈ (analyze_string value).character_frequency_map,
      p.2 = (normalize value).data.count p.1 := by
  constructor
  · show (normalize value).data.dedup.length = (counter (normalize value).data).length
    exact (counter_length _).symm
  · intro p hp
    exact counter_count _ p hp

/-- Claim C9 witness at `"banana"`: the frequency map is
`[(b,1), (a,3), (n,2)]`, with three keys and count 3 for the letter a. -/
theorem c9_witness :
    (analyze_string "banana").unique_characters =
      (analyze_string "banana").character_frequency_map.length ∧
    (('a', 3) : Char × Nat).2 = (normalize "banana").data.count ('a', 3).1 :=
  ⟨(c9_frequency_map_consistency "banana").1,
   (c9_frequency_map_consistency "banana").2 ('a', 3) (by decide)⟩

/-- Claim C10: the empty string is a valid input to the create path: all
derived properties are the neutral values (0-length, palindrome, no
words, no characters), its fingerprint is the SHA-256 of the empty byte
string, and create stores it like any other value. -/
theorem c10_empty_string (now : String) :
    (analyze_string "").length = 0 ∧
    (analyze_string "").is_palindrome = true ∧
    (analyze_string "").word_count = 0 ∧
    (analyze_string "").unique_characters = 0 ∧
    (analyze_string "").character_frequency_map = [] ∧
    (analyze_string "").sha256_hash =
      "e3b0c44298fc1c149afbf4c8996fb92427ae41e4649b934ca495991b7852b855" ∧
    create_string [] now "" =
      (Except.ok ⟨(analyze_string "").sha256_hash, "", analyze_string "", now⟩,
       [((analyze_string "").sha256_hash,
         ⟨(analyze_string "").sha256_hash, "", analyze_string "", now⟩)]) :=
  ⟨rfl, rfl, rfl, rfl, rfl, by decide, rfl⟩

/-- Claim C1: two values with the same lowercase folding get the same
content fingerprint, and after a successful create of the first, a
create of the second fails with 409 Conflict and leaves the store
unchanged. -/
theorem c1_casefold_conflict (s1 s2 : String) (store : Store) (n1 n2 : String)
    (r : StringRecord) (store' : Store)
    (h : normalize s1 = normalize s2)
    (hc : create_string store n1 s1 = (Except.ok r, store')) :
    (analyze_string s1).sha256_hash = (analyze_string s2).sha256_hash ∧
    create_string store' n2 s2 =
      (Except.error (409, "String already exists"), store') := by
  have hhash : (analyze_string s1).sha256_hash = (analyze_string s2).sha256_hash := by
    rw [sha256_hash_def, sha256_hash_def, h]
  obtain ⟨hget, hr, hs'⟩ := create_ok hc
  refine ⟨hhash, ?_⟩
  have hget2 : alookup store (analyze_string s1).sha256_hash = none := hget
  have hget' : storeGet store' (analyze_string s2).sha256_hash = some r := by
    rw [← hhash, hs', storeGet, alookup_append_none _ hget2]
    simp [alookup]
  unfold create_string
  dsimp only
  rw [hget']

def c1rec : StringRecord :=
  ⟨(analyze_string "Abc").sha256_hash, "Abc", analyze_string "Abc", "t1"⟩

/-- Claim C1 witness: `"Abc"` and `"aBC"` fold to `"abc"`; after storing
the first, creating the second is rejected with 409. -/
theorem c1_witness :
    (analyze_string "Abc").sha256_hash = (analyze_string "aBC").sha256_hash ∧
    create_string [((analyze_string "Abc").sha256_hash, c1rec)] "t2" "aBC" =
      (Except.error (409, "String already exists"),
       [((analyze_string "Abc").sha256_hash, c1rec)]) :=
  c1_casefold_conflict "Abc" "aBC" [] "t1" "t2" c1rec
    [((analyze_string "Abc").sha256_hash, c1rec)] (by decide) rfl

/-- The stored value that is syntactically a fingerprint: 64 zeros. -/
def z64 : String := String.mk (List.replicate 64 '0')

set_option maxRecDepth 100000 in
/-- Claim C2 counterexample: after successfully creating the value of 64
zero digits, resolving by the original value returns 404, because the
resolver's first tier treats any 64-hex-character token as an id and
does not fall through on a miss. -/
theorem c2_counterexample :
    (create_string [] "t" z64).1 =
      Except.ok ⟨(analyze_string z64).sha256_hash, z64, analyze_string z64, "t"⟩ ∧
    get_string (create_string [] "t" z64).2 z64 =
      Except.error (404, "String not found") :=
  ⟨rfl, rfl⟩

/-- Claim C2 (amended): the round-trip holds for every value that is not
itself fingerprint-shaped: if neither the value nor its lowercase folding
is a 64-character lowercase-hex string, then after a successful create,
resolving by the record id, by the original value, and by the lowercased
value all return the stored record. -/
theorem c2_resolver_roundtrip (store : Store) (now v : String) (r : StringRecord)
    (store' : Store)
    (hc : create_string store now v = (Except.ok r, store'))
    (h1 : isHex64 v = false) (h2 : isHex64 (normalize v) = false) :
    get_string store' r.id = Except.ok r ∧
    get_string store' v = Except.ok r ∧
    get_string store' (normalize v) = Except.ok r := by
  obtain ⟨hget, hr, hs'⟩ := create_ok hc
  have hget2 : alookup store (analyze_string v).sha256_hash = none := hget
  have hrid : r.id = (analyze_string v).sha256_hash := by rw [hr]
  have hhex : isHex64 (analyze_string v).sha256_hash = true := by
    rw [sha256_hash_def]
    exact isHex64_digest _
  have hfound : storeGet store' (analyze_string v).sha256_hash = some r := by
    rw [hs', storeGet, alookup_append_none _ hget2]
    simp [alookup]
  have hsid : String.mk (hexDigest (sha256 (encodeUtf8 (normalize v)))) =
      (analyze_string v).sha256_hash := (sha256_hash_def v).symm
  have hfa : find_string store' (analyze_string v).sha256_hash = some r := by
    rw [find_string, if_pos hhex]
    exact hfound
  have hfb : find_string store' v = some r := by
    rw [find_string, if_neg (by simp [h1])]
    dsimp only
    rw [hsid, hfound]
  have hfc : find_string store' (normalize v) = some r := by
    rw [find_string, if_neg (by simp [h2])]
    dsimp only
    rw [normalize_idem, hsid, hfound]
  refine ⟨?_, ?_, ?_⟩
  · rw [get_string, hrid, hfa]
  · rw [get_string, hfb]
  · rw [get_string, hfc]

def c2rec : StringRecord :=
  ⟨(analyze_string "Hello World").sha256_hash, "Hello World",
   analyze_string "Hello World", "t"⟩

/-- Claim C2 witness: for the stored value `"Hello World"`, resolving by
id, by original value, and by lowercased value all return the record. -/
theorem c2_witness :
    get_string [((analyze_string "Hello World").sha256_hash, c2rec)] c2rec.id =
      Except.ok c2rec ∧
    get_string [((analyze_string "Hello World").sha256_hash, c2rec)] "Hello World" =
      Except.ok c2rec ∧
    get_string [((analyze_string "Hello World").sha256_hash, c2rec)]
      (normalize "Hello World") = Except.ok c2rec :=
  c2_resolver_roundtrip [] "t" "Hello World" c2rec
    [((analyze_string "Hello World").sha256_hash, c2rec)] rfl
    (by decide) (by decide)

/-- Claim C3 counterexample: an empty `contains_character` is falsy in
both the endpoint guard and the filter, so the list endpoint silently
ignores it instead of rejecting it with 400. -/
theorem c3_counterexample :
    list_strings [] ⟨none, none, none, none, some ""⟩ = Except.ok ([], 0) := rfl

/-- Claim C3 (amended): a supplied `contains_character` that is non-empty
and not exactly one character is rejected with 400; the empty string is
instead treated as if the criterion were absent. -/
theorem c3_invalid_contains_character (s : String)
    (h1 : s ≠ "") (h2 : s.length ≠ 1) :
    (∀ (store : Store) (f : Filters), f.contains_character = some s →
      list_strings store f =
        Except.error (400, "contains_character must be one letter")) ∧
    (∀ (store : Store) (f : Filters), f.contains_character = some "" →
      list_strings store f =
        list_strings store { f with contains_character := none }) := by
  constructor
  · intro store f hf
    have hbad : ccBad f.contains_character = true := by
      rw [hf]
      simp [ccBad, h1, h2]
    rw [list_strings, if_pos hbad]
  · intro store f hf
    have hf1 : ccBad f.contains_character = false := by rw [hf]; simp [ccBad]
    have hf2 : ccBad (none : Option String) = false := rfl
    rw [list_strings, list_strings]
    rw [if_neg (by simp [hf1]), if_neg (by simp [hf2])]
    have hkeep : ∀ i, keepRecord f i =
        keepRecord { f with contains_character := none } i := by
      intro i
      simp [keepRecord, hf]
    rw [apply_filters_congr _ _ _ hkeep]

/-- Claim C3 witness: `contains_character="ab"` is rejected with 400, and
`contains_character=""` behaves exactly like an absent criterion. -/
theorem c3_witness :
    list_strings [] ⟨none, none, none, none, some "ab"⟩ =
      Except.error (400, "contains_character must be one letter") ∧
    list_strings [] ⟨none, none, none, none, some ""⟩ =
      list_strings [] ⟨none, none, none, none, none⟩ :=
  ⟨(c3_invalid_contains_character "ab" (by decide) (by decide)).1 [] _ rfl,
   (c3_invalid_contains_character "ab" (by decide) (by decide)).2 [] _ rfl⟩

/-- Claim C4: when both the containing-the-letter pattern and the
first-vowel phrase match the query, the rule applied later in the fixed
table order wins: `contains_character` ends up `"a"`; and criteria from
distinct patterns merge into one criteria set. -/
theorem c4_last_rule_wins (q : String) (c : Char)
    (_h1 : searchLetter (normQuery q) = some c)
    (h2 : hasSub "first vowel".data (normQuery q) = true) :
    parse_query q = Except.ok (parsedFilters q) ∧
    (parsedFilters q).contains_character = some "a" ∧
    parse_query "palindromic single word containing the letter z" =
      Except.ok ⟨some true, none, none, some 1, some "z"⟩ := by
  have hcc : (parsedFilters q).contains_character = some "a" := by
    rw [parsedFilters_cc, if_pos h2]
  refine ⟨?_, hcc, rfl⟩
  apply parse_query_ok
  intro he
  rw [filters_eq_empty_iff] at he
  exact Option.noConfusion (hcc.symm.trans he.2.2.2.2)

/-- Claim C4 witness: a query matching both letter patterns parses with
`contains_character = "a"`. -/
theorem c4_witness :
    parse_query "single word containing the letter b and first vowel" =
      Except.ok (parsedFilters "single word containing the letter b and first vowel") ∧
    (parsedFilters "single word containing the letter b and first vowel").contains_character
      = some "a" ∧
    parse_query "palindromic single word containing the letter z" =
      Except.ok ⟨some true, none, none, some 1, some "z"⟩ :=
  c4_last_rule_wins "single word containing the letter b and first vowel" 'b'
    (by decide) (by decide)

/-- Claim C5: a query matching "longer than N" parses to
`min_length = N + 1`; the example query parses to exactly
`{min_length: 6, contains_character: "z"}`. -/
theorem c5_longer_than (q : String) (n : Nat)
    (h : searchLonger (normQuery q) = some n) :
    (parsedFilters q).min_length = some ((n : Int) + 1) ∧
    parse_query "strings longer than 5 containing the letter z" =
      Except.ok ⟨none, some 6, none, none, some "z"⟩ := by
  constructor
  · rw [parsedFilters_min, h]
    rfl
  · rfl

/-- Claim C5 witness at the spec's example query, where N is 5. -/
theorem c5_witness :
    (parsedFilters "strings longer than 5 containing the letter z").min_length =
      some (((5 : Nat) : Int) + 1) ∧
    parse_query "strings longer than 5 containing the letter z" =
      Except.ok ⟨none, some 6, none, none, some "z"⟩ :=
  c5_longer_than "strings longer than 5 containing the letter z" 5 (by decide)

/-- Claim C6: parsing fails with the "Couldn't understand" error exactly
when none of the five fixed patterns matches; the natural-language
endpoint surfaces that as a 400 user error; when at least one pattern
matches, parsing succeeds with a non-empty criteria set. -/
theorem c6_unrecognized (q : String) (store : Store) :
    (parse_query q = Except.error "Couldn't understand the query." ↔
      anyPattern q = false) ∧
    (anyPattern q = false →
      filter_nl store q = Except.error (400, "Couldn't understand the query.")) ∧
    (anyPattern q = true →
      parse_query q = Except.ok (parsedFilters q) ∧
      parsedFilters q ≠ emptyFilters) := by
  have hiff := parsedFilters_eq_empty_iff q
  have hne_of_true : anyPattern q = true → parsedFilters q ≠ emptyFilters := by
    intro hap hemp
    rw [hiff.mp hemp] at hap
    exact Bool.noConfusion hap
  refine ⟨⟨?_, ?_⟩, ?_, ?_⟩
  · intro he
    cases hap : anyPattern q with
    | false => rfl
    | true =>
      rw [parse_query_ok q (hne_of_true hap)] at he
      exact Except.noConfusion he
  · intro hap
    exact parse_query_error q (hiff.mpr hap)
  · intro hap
    rw [filter_nl, parse_query_error q (hiff.mpr hap)]
  · intro hap
    exact ⟨parse_query_ok q (hne_of_true hap), hne_of_true hap⟩

/-- Claim C6 witness: `"banana bread"` matches no pattern and is rejected
as a user error; `"palindrome"` matches one pattern and parses to a
non-empty criteria set. -/
theorem c6_witness :
    parse_query "banana bread" = Except.error "Couldn't understand the query." ∧
    filter_nl [] "banana bread" = Except.error (400, "Couldn't understand the query.") ∧
    (parse_query "palindrome" = Except.ok (parsedFilters "palindrome") ∧
      parsedFilters "palindrome" ≠ emptyFilters) :=
  ⟨(c6_unrecognized "banana bread" []).1.mpr (by decide),
   (c6_unrecognized "banana bread" []).2.1 (by decide),
   (c6_unrecognized "palindrome" []).2.2 (by decide)⟩

/-- A well-formed store: every key is the stored record's id and is
fingerprint-shaped, and keys are distinct (as in a Python dict). -/
def WFStore (s : Store) : Prop :=
  (∀ p ∈ s, p.2.id = p.1 ∧ isHex64 p.1 = true) ∧ (s.map Prod.fst).Nodup

/-- Claim C8: deleting a stored record succeeds; afterwards a get of its
id returns absent (404) and a second delete of the same id fails with
404, leaving the store unchanged. -/
theorem c8_delete_then_get (s : Store) (r : StringRecord)
    (hwf : WFStore s) (hmem : (r.id, r) ∈ s) :
    delete_string s r.id = (Except.ok (), storeErase s r.id) ∧
    get_string (storeErase s r.id) r.id = Except.error (404, "String not found") ∧
    delete_string (storeErase s r.id) r.id =
      (Except.error (404, "String not found"), storeErase s r.id) := by
  have hhex : isHex64 r.id = true := (hwf.1 (r.id, r) hmem).2
  have hget : storeGet s r.id = some r := alookup_eq_some_of_mem hwf.2 hmem
  have hfind : find_string s r.id = some r := by
    rw [find_string, if_pos hhex]
    exact hget
  have hgone : storeGet (storeErase s r.id) r.id = none := alookup_filter_ne s r.id
  have hfind2 : find_string (storeErase s r.id) r.id = none := by
    rw [find_string, if_pos hhex]
    exact hgone
  refine ⟨?_, ?_, ?_⟩
  · rw [delete_string, hfind]
  · rw [get_string, hfind2]
  · rw [delete_string, hfind2]

def c8rec : StringRecord :=
  ⟨(analyze_string "abc").sha256_hash, "abc", analyze_string "abc", "t"⟩

def c8store : Store := [((analyze_string "abc").sha256_hash, c8rec)]

/-- Claim C8 witness on a store holding the single record for `"abc"`. -/
theorem c8_witness :
    delete_string c8store c8rec.id = (Except.ok (), storeErase c8store c8rec.id) ∧
    get_string (storeErase c8store c8rec.id) c8rec.id =
      Except.error (404, "String not found") ∧
    delete_string (storeErase c8store c8rec.id) c8rec.id =
      (Except.error (404, "String not found"), storeErase c8store c8rec.id) :=
  c8_delete_then_get c8store c8rec ⟨by decide, by decide⟩ (by decide)

end StringSvc
